import Mathlib

/-!
Shallow embedding of the statistical engine of the DAaaS graduate-outcome
analytics repository (files `RelativePerformanceIndexAnalytics.py`,
`EmploymentSalaryTradeoffAnalytics.py`, `UniversityComparisonAnalytics.py`),
together with theorems settling the frozen claims about it.

Numeric values computed by numpy/pandas over floats are modelled as exact
real numbers (`ℝ`) where a square root is involved, and as rationals (`ℚ`)
elsewhere.  A pandas `NaN` produced and later consumed by `fillna` is
modelled with `Option`.  Series/arrays are modelled either as a length `n`
together with a function `ℕ → ℝ`, or as `List`s where order and
multiplicity matter.
-/

namespace DAaaS

/-- Arithmetic mean of the first `n` entries of `v`
(`np.mean(vals)` in `compute_relative_performance_index`, line 122). -/
noncomputable def meanFn (n : ℕ) (v : ℕ → ℝ) : ℝ :=
  (∑ i ∈ Finset.range n, v i) / n

/-- Population variance, divisor `n`
(square of `np.std(vals, ddof=0)`, line 123 of
`RelativePerformanceIndexAnalytics.py`). -/
noncomputable def popVar (n : ℕ) (v : ℕ → ℝ) : ℝ :=
  (∑ i ∈ Finset.range n, (v i - meanFn n v) ^ 2) / n

/-- Population standard deviation `np.std(vals, ddof=0)` (line 123). -/
noncomputable def popStd (n : ℕ) (v : ℕ → ℝ) : ℝ :=
  Real.sqrt (popVar n v)

/-- The column `year_std_safe` (line 138):
`out["year_std"].where(out["year_std"] >= zscore_floor_std, np.nan)`.
The `NaN` is modelled as `none`. -/
noncomputable def yearStdSafe (n : ℕ) (v : ℕ → ℝ) (stdFloor : ℝ) : Option ℝ :=
  if stdFloor ≤ popStd n v then some (popStd n v) else none

/-- The column `z_score` (lines 139-140) for the group with value `v i`
inside a period whose groups carry values `v 0, …, v (n-1)`:
`(mean_salary - year_mean) / year_std_safe` followed by `fillna(0.0)`.
Division by the `NaN` (`none`) yields `NaN`, which `fillna` turns into `0`. -/
noncomputable def zScore (n : ℕ) (v : ℕ → ℝ) (stdFloor : ℝ) (i : ℕ) : ℝ :=
  ((yearStdSafe n v stdFloor).map (fun s => (v i - meanFn n v) / s)).getD 0

/-- Dense descending rank (line 142-146:
`groupby("year")["z_score"].rank(method="dense", ascending=False)`):
one plus the number of distinct z-score values strictly greater than `z i`. -/
noncomputable def denseRankDesc (n : ℕ) (z : ℕ → ℝ) (i : ℕ) : ℕ :=
  (((Finset.range n).filter (fun j => z i < z j)).image z).card + 1

/-- Average ascending rank (part of lines 147-150:
`rank(method="average", ascending=True)`): the mean of the ordinal rank
positions a tie block occupies, i.e. `(#{strictly below} + #{at or below} + 1)/2`. -/
noncomputable def avgRankAsc (n : ℕ) (z : ℕ → ℝ) (i : ℕ) : ℝ :=
  ((((Finset.range n).filter (fun j => z j < z i)).card
    + ((Finset.range n).filter (fun j => z j ≤ z i)).card + 1 : ℕ) : ℝ) / 2

/-- The column `percentile` (lines 147-150):
average ascending rank with `pct=True` (divide by the period size), times 100. -/
noncomputable def percentileAsc (n : ℕ) (z : ℕ → ℝ) (i : ℕ) : ℝ :=
  avgRankAsc n z i / n * 100

/-- A period whose `n` groups all carry the same `mean_salary` value `c`. -/
def constV (c : ℝ) : ℕ → ℝ := fun _ => c

/-- Two-group period with values 1 and 3 (used to instantiate theorems). -/
def pairV : ℕ → ℝ := fun i => if i = 0 then 1 else 3

/-- The aggregated `std_value` columns (`employment_rate_std`,
`median_salary_std`) produced by pandas `.agg(..., "std")` in
`employment_salary_tradeoff` (lines 161-170): pandas uses `ddof=1`, so this
is the sample standard deviation with divisor `count - 1`. -/
noncomputable def aggStd (n : ℕ) (v : ℕ → ℝ) : ℝ :=
  Real.sqrt ((∑ i ∈ Finset.range n, (v i - meanFn n v) ^ 2) / ((n : ℝ) - 1))

/-- Centred sum of squares of a series. -/
noncomputable def sxx (n : ℕ) (x : ℕ → ℝ) : ℝ :=
  ∑ i ∈ Finset.range n, (x i - meanFn n x) ^ 2

/-- Centred sum of products of two series. -/
noncomputable def sxy (n : ℕ) (x y : ℕ → ℝ) : ℝ :=
  ∑ i ∈ Finset.range n, (x i - meanFn n x) * (y i - meanFn n y)

/-- Unweighted Pearson correlation of two aggregated series, as computed by
`summary[["avg_employment_rate", "avg_median_salary"]].corr().iloc[0, 1]`
(line 179): the product-moment coefficient, a `NaN` (modelled `none`) when
either series has zero centred sum of squares. -/
noncomputable def pearson (n : ℕ) (x y : ℕ → ℝ) : Option ℝ :=
  if 0 < sxx n x ∧ 0 < sxx n y then
    some (sxy n x y / Real.sqrt (sxx n x * sxx n y))
  else none

/-- Weighted mean `(w * v).sum() / w_sum` (lines 190-191). -/
noncomputable def wMean (n : ℕ) (w v : ℕ → ℝ) : ℝ :=
  (∑ i ∈ Finset.range n, w i * v i) / (∑ i ∈ Finset.range n, w i)

/-- Weighted covariance `(w * (x - x_mean) * (y - y_mean)).sum() / w_sum`
(line 192). -/
noncomputable def wCov (n : ℕ) (w x y : ℕ → ℝ) : ℝ :=
  (∑ i ∈ Finset.range n, w i * (x i - wMean n w x) * (y i - wMean n w y)) /
    (∑ i ∈ Finset.range n, w i)

/-- Weighted variance `(w * (x - x_mean) ** 2).sum() / w_sum` (lines 193-194). -/
noncomputable def wVar (n : ℕ) (w v : ℕ → ℝ) : ℝ :=
  (∑ i ∈ Finset.range n, w i * (v i - wMean n w v) ^ 2) /
    (∑ i ∈ Finset.range n, w i)

/-- Sample-size-weighted Pearson correlation (lines 184-199 of
`employment_salary_tradeoff`): `None` (modelled `none`) when the weight sum
is not positive or either weighted variance is not positive, otherwise
`cov / np.sqrt(var_x * var_y)`. -/
noncomputable def weightedPearson (n : ℕ) (x y w : ℕ → ℝ) : Option ℝ :=
  if 0 < ∑ i ∈ Finset.range n, w i then
    if 0 < wVar n w x ∧ 0 < wVar n w y then
      some (wCov n w x y / Real.sqrt (wVar n w x * wVar n w y))
    else none
  else none

/-- Rational-valued arithmetic mean of the first `n` entries of `v`. -/
def meanQFn (n : ℕ) (v : ℕ → ℚ) : ℚ :=
  (∑ i ∈ Finset.range n, v i) / n

/-- Ordinary least squares slope produced by `np.polyfit(x, y, 1)`
(lines 276 and 358 of `EmploymentSalaryTradeoffAnalytics.py`). -/
def polyfitSlope (n : ℕ) (x y : ℕ → ℚ) : ℚ :=
  (∑ i ∈ Finset.range n, (x i - meanQFn n x) * (y i - meanQFn n y)) /
    (∑ i ∈ Finset.range n, (x i - meanQFn n x) ^ 2)

/-- Ordinary least squares intercept produced by `np.polyfit(x, y, 1)`. -/
def polyfitIntercept (n : ℕ) (x y : ℕ → ℚ) : ℚ :=
  meanQFn n y - polyfitSlope n x y * meanQFn n x

/-- Residual sum of squares `np.sum((y - y_hat) ** 2)` (lines 277-278). -/
def ssRes (n : ℕ) (x y : ℕ → ℚ) : ℚ :=
  ∑ i ∈ Finset.range n,
    (y i - (polyfitSlope n x y * x i + polyfitIntercept n x y)) ^ 2

/-- Total sum of squares `np.sum((y - np.mean(y)) ** 2)` (line 279). -/
def ssTot (n : ℕ) (y : ℕ → ℚ) : ℚ :=
  ∑ i ∈ Finset.range n, (y i - meanQFn n y) ^ 2

/-- Coefficient of determination (line 280):
`r2 = 1 - ss_res / ss_tot if ss_tot != 0 else None`. -/
def r2 (n : ℕ) (x y : ℕ → ℚ) : Option ℚ :=
  if ssTot n y ≠ 0 then some (1 - ssRes n x y / ssTot n y) else none

/-- The x series 1, 2, 3 of the spec's `linear_fit` scenario. -/
def exX : ℕ → ℚ := fun i => (i : ℚ) + 1

/-- The y series 2, 4, 6 of the spec's `linear_fit` scenario. -/
def exY : ℕ → ℚ := fun i => 2 * ((i : ℚ) + 1)

/-- Pandas `Series.median()` as used for the quadrant split (lines 203-204
of `employment_salary_tradeoff`): the middle element of the sorted values
when the count is odd, otherwise the average of the two middle elements. -/
def medianPd (v : List ℚ) : ℚ :=
  if v.length % 2 = 1 then (v.insertionSort (· ≤ ·)).getD (v.length / 2) 0
  else ((v.insertionSort (· ≤ ·)).getD (v.length / 2 - 1) 0
    + (v.insertionSort (· ≤ ·)).getD (v.length / 2) 0) / 2

/-- Per-axis level label (lines 205-206):
`np.where(value >= median, "High", "Low")`. -/
def levelLabel (m xv : ℚ) : String := if m ≤ xv then "High" else "Low"

/-- Number of groups assigned the "High" label on one axis of the quadrant
classification. -/
def highCount (v : List ℚ) : ℕ :=
  v.countP (fun xv => levelLabel (medianPd v) xv == "High")

/-- Column names of a dataframe modelled as named columns of rationals. -/
def dfColumns (df : List (String × List ℚ)) : List String := df.map Prod.fst

/-- Required columns of `compute_relative_performance_index` (line 82):
`["year", salary_column, *group_by]`. -/
def requiredColumns (salaryColumn : String) (groupBy : List String) : List String :=
  "year" :: salaryColumn :: groupBy

/-- The `missing_required` comprehension (line 83):
`[c for c in required if c not in df.columns]`. -/
def missingRequired (df : List (String × List ℚ)) (salaryColumn : String)
    (groupBy : List String) : List String :=
  (requiredColumns salaryColumn groupBy).filter
    (fun c => !(dfColumns df).contains c)

/-- Lines 82-85 of `compute_relative_performance_index`: when any required
column is absent, raise `ValueError(f"missing required columns:
{missing_required}")`, which carries the whole list of missing names;
otherwise continue with the frame.  The `Except` models that no partial
result escapes on error. -/
def checkRequiredColumns (df : List (String × List ℚ)) (salaryColumn : String)
    (groupBy : List String) : Except (List String) (List (String × List ℚ)) :=
  if missingRequired df salaryColumn groupBy = [] then .ok df
  else .error (missingRequired df salaryColumn groupBy)

/-- A row of the normalized z-score table consumed by
`select_focus_groups`: the group column value, the year, and the z-score. -/
structure ScoreRow where
  group : String
  year : Int
  z : ℚ
deriving DecidableEq

/-- The `avg_z` aggregate of `select_focus_groups` (line 181): mean z-score
over the rows of one group. -/
def avgZ (t : List ScoreRow) (g : String) : ℚ :=
  ((t.filter (fun r => r.group == g)).map (fun r => r.z)).sum /
    ((t.filter (fun r => r.group == g)).length : ℚ)

/-- The `years` aggregate of `select_focus_groups` (line 181): number of
distinct years in which the group appears (`("year", "nunique")`). -/
def yearsPresent (t : List ScoreRow) (g : String) : ℕ :=
  (((t.filter (fun r => r.group == g)).map (fun r => r.year)).dedup).length

/-- Sort order of line 185 (`sort_values(["avg_z", "years"],
ascending=[False, False])`): `a` comes no later than `b` when its mean
z-score is larger, or equal with at least as many distinct years. -/
def focusLE (t : List ScoreRow) (a b : String) : Prop :=
  avgZ t b < avgZ t a ∨ (avgZ t a = avgZ t b ∧ yearsPresent t b ≤ yearsPresent t a)

instance (t : List ScoreRow) : DecidableRel (focusLE t) := fun a b => by
  unfold focusLE
  infer_instance

instance (t : List ScoreRow) : IsTotal String (focusLE t) := ⟨by
  intro a b
  unfold focusLE
  rcases lt_trichotomy (avgZ t a) (avgZ t b) with h | h | h
  · exact Or.inr (Or.inl h)
  · rcases le_total (yearsPresent t b) (yearsPresent t a) with hy | hy
    · exact Or.inl (Or.inr ⟨h, hy⟩)
    · exact Or.inr (Or.inr ⟨h.symm, hy⟩)
  · exact Or.inl (Or.inl h)⟩

instance (t : List ScoreRow) : IsTrans String (focusLE t) := ⟨by
  intro a b c hab hbc
  rcases hab with h1 | ⟨h1, h1y⟩ <;> rcases hbc with h2 | ⟨h2, h2y⟩
  · exact Or.inl (h2.trans h1)
  · exact Or.inl (h2 ▸ h1)
  · exact Or.inl (by rw [h1]; exact h2)
  · exact Or.inr ⟨h1.trans h2, h2y.trans h1y⟩⟩

/-- The ranking path of `select_focus_groups` (lines 179-186): restrict to
groups present in at least `min_years` distinct years, sort by mean z-score
descending with ties broken by distinct-year count descending, take the
first `top_k`. -/
def selectFocusGroupsRanked (t : List ScoreRow) (topK minYears : ℕ) : List String :=
  (((t.map (fun r => r.group)).dedup.filter
      (fun g => minYears ≤ yearsPresent t g)).insertionSort (focusLE t)).take topK

/-- `select_focus_groups` (lines 169-186): a non-empty explicit focus list
is filtered down to the group names actually present in the table (Python
`if focus:` treats `None` and `[]` alike); otherwise the ranking path runs. -/
def selectFocusGroups (t : List ScoreRow) (topK minYears : ℕ)
    (focus : Option (List String)) : List String :=
  match focus with
  | some f =>
    if f = [] then selectFocusGroupsRanked t topK minYears
    else f.filter (fun g => (t.map (fun r => r.group)).contains g)
  | none => selectFocusGroupsRanked t topK minYears

/-- The example table used to instantiate the `select_focus_groups`
theorem. -/
def tEx : List ScoreRow := [⟨"A", 2020, 1⟩, ⟨"B", 2020, 2⟩]

/-- One survey record carrying the fields that `load_data` of
`UniversityComparisonAnalytics.py` filters on. -/
structure Record where
  year : Int
  university : String
  course_category : String
deriving DecidableEq

/-- `MIN_RECORDS = 40` (line 38): minimum records for a university to be
included. -/
def MIN_RECORDS : ℕ := 40

/-- Year-range filter of `load_data` (line 71). -/
def filterYears (rows : List Record) (yearStart yearEnd : Int) : List Record :=
  rows.filter (fun r => yearStart ≤ r.year ∧ r.year ≤ yearEnd)

/-- Optional university filter of `load_data` (lines 74-75); Python
`if universities:` skips the filter for `None` and for an empty list. -/
def filterUniversities (rows : List Record)
    (universities : Option (List String)) : List Record :=
  match universities with
  | some us => if us = [] then rows else rows.filter (fun r => us.contains r.university)
  | none => rows

/-- Optional category filter of `load_data` (lines 78-79). -/
def filterCategories (rows : List Record)
    (categories : Option (List String)) : List Record :=
  match categories with
  | some cs => if cs = [] then rows else rows.filter (fun r => cs.contains r.course_category)
  | none => rows

/-- The `major_unis` list (lines 82-83): universities whose record count in
the filtered frame reaches `MIN_RECORDS` (`value_counts()` then the
threshold test). -/
def majorUniversities (df : List Record) : List String :=
  (df.map (fun r => r.university)).dedup.filter
    (fun u => MIN_RECORDS ≤ df.countP (fun r => r.university == u))

/-- `load_data` (lines 47-86): year, university and category filters, then
the bias-mitigation step (line 84) keeping only rows of major
universities. -/
def load_data (rows : List Record) (yearStart yearEnd : Int)
    (universities categories : Option (List String)) : List Record :=
  (filterCategories (filterUniversities (filterYears rows yearStart yearEnd)
      universities) categories).filter
    (fun r => (majorUniversities (filterCategories (filterUniversities
      (filterYears rows yearStart yearEnd) universities) categories)).contains
      r.university)

/-- Forty identical records, used to instantiate the `load_data` theorem. -/
def rowsEx : List Record := List.replicate 40 ⟨2020, "NUS", "Engineering"⟩

end DAaaS

namespace DAaaS

theorem meanFn_const (n : ℕ) (hn : 0 < n) (c : ℝ) : meanFn n (constV c) = c := by
  have hn' : (n : ℝ) ≠ 0 := Nat.cast_ne_zero.mpr hn.ne'
  simp [meanFn, constV, mul_comm]
  field_simp

theorem popVar_const (n : ℕ) (hn : 0 < n) (c : ℝ) : popVar n (constV c) = 0 := by
  simp [popVar, meanFn_const n hn c, constV]

theorem popVar_nonneg (n : ℕ) (v : ℕ → ℝ) : 0 ≤ popVar n v := by
  apply div_nonneg _ (Nat.cast_nonneg n)
  exact Finset.sum_nonneg fun i _ => sq_nonneg _

/-- C1: in the normalization output, a group's `z_score` is
`(mean_value − baseline_mean) / baseline_std` when the period's baseline
standard deviation reaches the floor `std_floor`, and exactly `0` otherwise;
in the first case the divisor is provably nonzero, so the quotient is an
ordinary finite real number (no `NaN`/infinity). -/
theorem zScore_floor_conditional (n : ℕ) (v : ℕ → ℝ) (stdFloor : ℝ) (i : ℕ)
    (hfloor : 0 < stdFloor) :
    (stdFloor ≤ popStd n v →
      zScore n v stdFloor i = (v i - meanFn n v) / popStd n v ∧ popStd n v ≠ 0) ∧
    (popStd n v < stdFloor → zScore n v stdFloor i = 0) := by
  constructor
  · intro h
    constructor
    · simp [zScore, yearStdSafe, if_pos h]
    · exact ne_of_gt (lt_of_lt_of_le hfloor h)
  · intro h
    simp [zScore, yearStdSafe, if_neg (not_le.mpr h)]

theorem zScore_of_lt_floor (n : ℕ) (v : ℕ → ℝ) (stdFloor : ℝ) (i : ℕ)
    (h : popStd n v < stdFloor) : zScore n v stdFloor i = 0 := by
  simp [zScore, yearStdSafe, if_neg (not_le.mpr h)]

theorem zScore_floor_conditional_witness :
    (0 : ℝ) < 1/1000000000 ∧
    ((1/1000000000 ≤ popStd 2 pairV →
      zScore 2 pairV (1/1000000000) 0 = (pairV 0 - meanFn 2 pairV) / popStd 2 pairV ∧
        popStd 2 pairV ≠ 0) ∧
    (popStd 2 pairV < 1/1000000000 → zScore 2 pairV (1/1000000000) 0 = 0)) :=
  ⟨by norm_num, zScore_floor_conditional 2 pairV (1/1000000000) 0 (by norm_num)⟩

/-- C3: for a period with at least two groups, `weight_mode = "none"`, and a
baseline standard deviation at or above the (positive) floor, the z-scores of
that period have arithmetic mean 0 and population standard deviation 1. -/
theorem zScore_mean_zero_popStd_one (n : ℕ) (v : ℕ → ℝ) (stdFloor : ℝ)
    (hn : 2 ≤ n) (hfloor : 0 < stdFloor) (h : stdFloor ≤ popStd n v) :
    meanFn n (fun i => zScore n v stdFloor i) = 0 ∧
    popStd n (fun i => zScore n v stdFloor i) = 1 := by
  have hσ : 0 < popStd n v := lt_of_lt_of_le hfloor h
  have hz : ∀ i, zScore n v stdFloor i = (v i - meanFn n v) / popStd n v := by
    intro i; simp [zScore, yearStdSafe, if_pos h]
  have hn0 : (0:ℕ) < n := lt_of_lt_of_le (by norm_num) hn
  have hnR : (n : ℝ) ≠ 0 := Nat.cast_ne_zero.mpr hn0.ne'
  have hsum : ∑ i ∈ Finset.range n, (v i - meanFn n v) = 0 := by
    rw [Finset.sum_sub_distrib, Finset.sum_const, Finset.card_range, nsmul_eq_mul, meanFn]
    field_simp
  have hmean : meanFn n (fun i => zScore n v stdFloor i) = 0 := by
    unfold meanFn
    rw [show (∑ i ∈ Finset.range n, zScore n v stdFloor i)
        = (∑ i ∈ Finset.range n, (v i - meanFn n v)) / popStd n v by
      rw [Finset.sum_div]; exact Finset.sum_congr rfl fun i _ => hz i]
    rw [hsum]
    simp
  refine ⟨hmean, ?_⟩
  have hσ2 : popStd n v ^ 2 = popVar n v := Real.sq_sqrt (popVar_nonneg n v)
  have hvpos : 0 < popVar n v := by rw [← hσ2]; positivity
  have hvar : popVar n (fun i => zScore n v stdFloor i) = 1 := by
    unfold popVar
    rw [hmean]
    rw [show (∑ i ∈ Finset.range n, (zScore n v stdFloor i - 0) ^ 2)
        = (∑ i ∈ Finset.range n, (v i - meanFn n v) ^ 2) / popStd n v ^ 2 by
      rw [Finset.sum_div]
      exact Finset.sum_congr rfl fun i _ => by rw [hz i, sub_zero, div_pow]]
    rw [hσ2]
    have hS : popVar n v = (∑ i ∈ Finset.range n, (v i - meanFn n v) ^ 2) / n := rfl
    have hSpos : 0 < ∑ i ∈ Finset.range n, (v i - meanFn n v) ^ 2 := by
      by_contra hng
      push_neg at hng
      have hS0 : (∑ i ∈ Finset.range n, (v i - meanFn n v) ^ 2) = 0 :=
        le_antisymm hng (Finset.sum_nonneg fun i _ => sq_nonneg _)
      rw [hS, hS0] at hvpos
      simp at hvpos
    have hSne : (∑ i ∈ Finset.range n, (v i - meanFn n v) ^ 2) ≠ 0 := hSpos.ne'
    rw [hS]
    field_simp
  rw [popStd, hvar, Real.sqrt_one]

theorem zScore_mean_zero_popStd_one_witness :
    ((2:ℕ) ≤ 2 ∧ (0:ℝ) < 1/1000000000 ∧ 1/1000000000 ≤ popStd 2 pairV) ∧
    (meanFn 2 (fun i => zScore 2 pairV (1/1000000000) i) = 0 ∧
     popStd 2 (fun i => zScore 2 pairV (1/1000000000) i) = 1) := by
  have hvar : popVar 2 pairV = 1 := by
    simp [popVar, meanFn, pairV, Finset.sum_range_succ]
    norm_num
  have hstd : popStd 2 pairV = 1 := by rw [popStd, hvar, Real.sqrt_one]
  exact ⟨⟨le_refl 2, by norm_num, by rw [hstd]; norm_num⟩,
    zScore_mean_zero_popStd_one 2 pairV (1/1000000000) (le_refl 2) (by norm_num)
      (by rw [hstd]; norm_num)⟩

/-- C2 counterexample: for one period with three groups sharing the same
`mean_value` (here 5), the percentile produced for each group is `200/3`
(about 66.67), not `50.0` as the claim states. -/
theorem tied_period_percentile_not_fifty :
    percentileAsc 3 (fun j => zScore 3 (constV 5) (1/1000000000) j) 0 = 200/3 ∧
    ((200:ℝ)/3 ≠ 50) := by
  have hstd : popStd 3 (constV 5) = 0 := by
    rw [popStd, popVar_const 3 (by norm_num) 5, Real.sqrt_zero]
  have hz : ∀ j, zScore 3 (constV 5) (1/1000000000) j = 0 := fun j =>
    zScore_of_lt_floor 3 (constV 5) (1/1000000000) j (by rw [hstd]; norm_num)
  have hfun : (fun j => zScore 3 (constV 5) (1/1000000000) j) = fun _ => (0:ℝ) :=
    funext hz
  constructor
  · rw [hfun]
    simp [percentileAsc, avgRankAsc]
    norm_num
  · norm_num

/-- C2 amended: for one period with three groups sharing the same
`mean_value`, the baseline standard deviation is 0, every group's z-score is
`0.0` and dense rank is 1, and every group's percentile is `200/3` (about
66.67, not 50.0). -/
theorem tied_period_outputs (c stdFloor : ℝ) (hfloor : 0 < stdFloor)
    (i : ℕ) (hi : i < 3) :
    popStd 3 (constV c) = 0 ∧
    zScore 3 (constV c) stdFloor i = 0 ∧
    denseRankDesc 3 (fun j => zScore 3 (constV c) stdFloor j) i = 1 ∧
    percentileAsc 3 (fun j => zScore 3 (constV c) stdFloor j) i = 200/3 := by
  have hstd : popStd 3 (constV c) = 0 := by
    rw [popStd, popVar_const 3 (by norm_num) c, Real.sqrt_zero]
  have hz : ∀ j, zScore 3 (constV c) stdFloor j = 0 := fun j =>
    zScore_of_lt_floor 3 (constV c) stdFloor j (by rw [hstd]; exact hfloor)
  have hfun : (fun j => zScore 3 (constV c) stdFloor j) = fun _ => (0:ℝ) := funext hz
  refine ⟨hstd, hz i, ?_, ?_⟩
  · rw [hfun]
    simp [denseRankDesc]
  · rw [hfun]
    simp [percentileAsc, avgRankAsc]
    norm_num

theorem tied_period_outputs_witness :
    ((0:ℝ) < 1/1000000000 ∧ (0:ℕ) < 3) ∧
    (popStd 3 (constV 7) = 0 ∧
     zScore 3 (constV 7) (1/1000000000) 0 = 0 ∧
     denseRankDesc 3 (fun j => zScore 3 (constV 7) (1/1000000000) j) 0 = 1 ∧
     percentileAsc 3 (fun j => zScore 3 (constV 7) (1/1000000000) j) 0 = 200/3) :=
  ⟨⟨by norm_num, by norm_num⟩,
    tied_period_outputs 7 (1/1000000000) (by norm_num) 0 (by norm_num)⟩

/-- C4 counterexample: for a group holding the two metric values 1 and 3,
the aggregated `std_value` is `sqrt 2` (sample standard deviation, divisor
`count − 1 = 1`) while the population standard deviation (divisor
`count = 2`) is 1, so the reported value is not the population standard
deviation. -/
theorem aggStd_ne_popStd :
    aggStd 2 pairV = Real.sqrt 2 ∧ popStd 2 pairV = 1 ∧ Real.sqrt 2 ≠ 1 := by
  have hsum : (∑ i ∈ Finset.range 2, (pairV i - meanFn 2 pairV) ^ 2) = 2 := by
    simp [meanFn, pairV, Finset.sum_range_succ]
    norm_num
  refine ⟨?_, ?_, ?_⟩
  · rw [aggStd, hsum]
    norm_num
  · rw [popStd, popVar, hsum]
    norm_num
  · rw [Ne, Real.sqrt_eq_one]
    norm_num

/-- C4 amended: the aggregated `std_value` is the sample standard deviation
(divisor `count − 1`, pandas `ddof=1`), not the population one: for every
group of at least two records it equals the population standard deviation
multiplied by `sqrt (count / (count − 1))`. -/
theorem aggStd_eq_popStd_mul (n : ℕ) (v : ℕ → ℝ) (hn : 2 ≤ n) :
    aggStd n v = popStd n v * Real.sqrt ((n : ℝ) / ((n : ℝ) - 1)) := by
  have hn1 : (1:ℝ) < (n:ℝ) := by exact_mod_cast (by omega : 1 < n)
  have hS : (0:ℝ) ≤ ∑ i ∈ Finset.range n, (v i - meanFn n v) ^ 2 :=
    Finset.sum_nonneg fun i _ => sq_nonneg _
  have hnR : (0:ℝ) < (n:ℝ) := by linarith
  have h1 : (0:ℝ) < (n:ℝ) - 1 := by linarith
  have hnne : (n:ℝ) ≠ 0 := hnR.ne'
  have h1ne : (n:ℝ) - 1 ≠ 0 := h1.ne'
  rw [aggStd, popStd, popVar, ← Real.sqrt_mul (by positivity)]
  congr 1
  field_simp

theorem aggStd_eq_popStd_mul_witness :
    (2:ℕ) ≤ 2 ∧
    aggStd 2 pairV = popStd 2 pairV * Real.sqrt ((2:ℝ) / ((2:ℝ) - 1)) :=
  ⟨le_refl 2, aggStd_eq_popStd_mul 2 pairV (le_refl 2)⟩

theorem wMean_const (n : ℕ) (c : ℝ) (v : ℕ → ℝ) (hn : 0 < n) (hc : c ≠ 0) :
    wMean n (fun _ => c) v = meanFn n v := by
  have hnR : (n:ℝ) ≠ 0 := Nat.cast_ne_zero.mpr hn.ne'
  rw [wMean, meanFn, ← Finset.mul_sum, Finset.sum_const, Finset.card_range,
    nsmul_eq_mul]
  rw [mul_comm (n:ℝ) c, mul_div_mul_left _ _ hc]

theorem wVar_const (n : ℕ) (c : ℝ) (v : ℕ → ℝ) (hn : 0 < n) (hc : c ≠ 0) :
    wVar n (fun _ => c) v = sxx n v / n := by
  rw [wVar, sxx, Finset.sum_const, Finset.card_range, nsmul_eq_mul]
  rw [show (∑ i ∈ Finset.range n, c * (v i - wMean n (fun _ => c) v) ^ 2)
      = c * ∑ i ∈ Finset.range n, (v i - meanFn n v) ^ 2 by
    rw [Finset.mul_sum]
    exact Finset.sum_congr rfl fun i _ => by rw [wMean_const n c v hn hc]]
  rw [mul_comm (n:ℝ) c, mul_div_mul_left _ _ hc]

theorem wCov_const (n : ℕ) (c : ℝ) (x y : ℕ → ℝ) (hn : 0 < n) (hc : c ≠ 0) :
    wCov n (fun _ => c) x y = sxy n x y / n := by
  rw [wCov, sxy, Finset.sum_const, Finset.card_range, nsmul_eq_mul]
  rw [show (∑ i ∈ Finset.range n,
        c * (x i - wMean n (fun _ => c) x) * (y i - wMean n (fun _ => c) y))
      = c * ∑ i ∈ Finset.range n, (x i - meanFn n x) * (y i - meanFn n y) by
    rw [Finset.mul_sum]
    exact Finset.sum_congr rfl fun i _ => by
      rw [wMean_const n c x hn hc, wMean_const n c y hn hc, mul_assoc]]
  rw [mul_comm (n:ℝ) c, mul_div_mul_left _ _ hc]

/-- C5: with at least two paired observations and a weight vector whose
entries all equal the same positive value, the sample-size-weighted Pearson
coefficient equals the unweighted Pearson coefficient whenever the latter is
defined. -/
theorem weightedPearson_const_weights (n : ℕ) (x y : ℕ → ℝ) (c r : ℝ)
    (hn : 2 ≤ n) (hc : 0 < c) (hdef : pearson n x y = some r) :
    weightedPearson n x y (fun _ => c) = some r := by
  have hn0 : 0 < n := by omega
  have hnR : (0:ℝ) < (n:ℝ) := Nat.cast_pos.mpr hn0
  have hguard : 0 < sxx n x ∧ 0 < sxx n y := by
    by_contra hng
    rw [pearson, if_neg hng] at hdef
    exact Option.noConfusion hdef
  have hr : r = sxy n x y / Real.sqrt (sxx n x * sxx n y) := by
    rw [pearson, if_pos hguard] at hdef
    exact (Option.some_injective _ hdef).symm
  have hwsum : (∑ i ∈ Finset.range n, (fun _ => c) i) = (n:ℝ) * c := by
    rw [Finset.sum_const, Finset.card_range, nsmul_eq_mul]
  have hvx : wVar n (fun _ => c) x = sxx n x / n := wVar_const n c x hn0 hc.ne'
  have hvy : wVar n (fun _ => c) y = sxx n y / n := wVar_const n c y hn0 hc.ne'
  have hcov : wCov n (fun _ => c) x y = sxy n x y / n := wCov_const n c x y hn0 hc.ne'
  rw [weightedPearson, if_pos (by rw [hwsum]; positivity),
    if_pos (by
      rw [hvx, hvy]
      exact ⟨div_pos hguard.1 hnR, div_pos hguard.2 hnR⟩)]
  rw [hcov, hvx, hvy, hr]
  congr 1
  rw [show sxx n x / (n:ℝ) * (sxx n y / (n:ℝ)) = sxx n x * sxx n y / ((n:ℝ) ^ 2) by
    ring]
  rw [Real.sqrt_div (mul_pos hguard.1 hguard.2).le ((n:ℝ) ^ 2), Real.sqrt_sq hnR.le]
  have hsq : (0:ℝ) < Real.sqrt (sxx n x * sxx n y) :=
    Real.sqrt_pos.mpr (mul_pos hguard.1 hguard.2)
  have hsqne : Real.sqrt (sxx n x * sxx n y) ≠ 0 := hsq.ne'
  have hnne : (n:ℝ) ≠ 0 := hnR.ne'
  field_simp

theorem weightedPearson_const_weights_witness :
    ((2:ℕ) ≤ 2 ∧ (0:ℝ) < 5 ∧
      pearson 2 pairV pairV = some (sxy 2 pairV pairV /
        Real.sqrt (sxx 2 pairV * sxx 2 pairV))) ∧
    weightedPearson 2 pairV pairV (fun _ => 5) =
      some (sxy 2 pairV pairV / Real.sqrt (sxx 2 pairV * sxx 2 pairV)) := by
  have hs : sxx 2 pairV = 2 := by
    simp [sxx, meanFn, pairV, Finset.sum_range_succ]
    norm_num
  have hdef : pearson 2 pairV pairV = some (sxy 2 pairV pairV /
      Real.sqrt (sxx 2 pairV * sxx 2 pairV)) := by
    rw [pearson, if_pos ⟨by rw [hs]; norm_num, by rw [hs]; norm_num⟩]
  exact ⟨⟨le_refl 2, by norm_num, hdef⟩,
    weightedPearson_const_weights 2 pairV pairV 5 _ (le_refl 2) (by norm_num) hdef⟩

/-- C9: for a linear trend fit, the reported `r2` equals
`1 − SS_res / SS_tot` whenever `SS_tot ≠ 0`, and it is the explicit
undefined marker `None` exactly when `SS_tot = 0`, i.e. exactly when all `y`
values are identical; the degenerate case yields `none`, never an error. -/
theorem r2_defined_iff (n : ℕ) (x y : ℕ → ℚ) (hn : 2 ≤ n) :
    (ssTot n y ≠ 0 → r2 n x y = some (1 - ssRes n x y / ssTot n y)) ∧
    (r2 n x y = none ↔ ∀ i ∈ Finset.range n, ∀ j ∈ Finset.range n, y i = y j) := by
  have hn0 : 0 < n := by omega
  have hnQ : (n:ℚ) ≠ 0 := Nat.cast_ne_zero.mpr hn0.ne'
  constructor
  · intro h
    rw [r2, if_pos h]
  · constructor
    · intro h
      have htot : ssTot n y = 0 := by
        by_contra hne
        rw [r2, if_pos hne] at h
        exact Option.noConfusion h
      have hzero : ∀ i ∈ Finset.range n, (y i - meanQFn n y) ^ 2 = 0 := by
        intro i hi
        have := (Finset.sum_eq_zero_iff_of_nonneg
          (fun j _ => sq_nonneg (y j - meanQFn n y))).mp htot
        exact this i hi
      intro i hi j hj
      have hyi : y i = meanQFn n y := by
        have := hzero i hi
        rw [pow_eq_zero_iff (by norm_num), sub_eq_zero] at this
        exact this
      have hyj : y j = meanQFn n y := by
        have := hzero j hj
        rw [pow_eq_zero_iff (by norm_num), sub_eq_zero] at this
        exact this
      rw [hyi, hyj]
    · intro hall
      have h0 : (0:ℕ) ∈ Finset.range n := Finset.mem_range.mpr hn0
      have hmean : meanQFn n y = y 0 := by
        rw [meanQFn, show (∑ i ∈ Finset.range n, y i) = (n:ℚ) * y 0 by
          rw [Finset.sum_congr rfl fun i hi => hall i hi 0 h0, Finset.sum_const,
            Finset.card_range, nsmul_eq_mul]]
        field_simp
      have htot : ssTot n y = 0 := by
        rw [ssTot]
        exact Finset.sum_eq_zero fun i hi => by
          rw [hmean, hall i hi 0 h0, sub_self]
          norm_num
      rw [r2, if_neg (by simpa using htot)]

theorem r2_defined_iff_witness :
    (2:ℕ) ≤ 3 ∧
    ((ssTot 3 exY ≠ 0 → r2 3 exX exY = some (1 - ssRes 3 exX exY / ssTot 3 exY)) ∧
     (r2 3 exX exY = none ↔
        ∀ i ∈ Finset.range 3, ∀ j ∈ Finset.range 3, exY i = exY j)) :=
  ⟨by norm_num, r2_defined_iff 3 exX exY (by norm_num)⟩

theorem levelLabel_high_iff (m xv : ℚ) :
    ((levelLabel m xv == "High") = true) ↔ m ≤ xv := by
  by_cases h : m ≤ xv <;> simp [levelLabel, h]

/-- C6 counterexample: over three groups with axis values 1, 1, 2 the median
is 1 and all three groups are labelled "High" — the High count is 3, neither
`floor (3/2) = 1` nor `ceil (3/2) = 2`, and all-High occurs although the
values are not all tied. -/
theorem highCount_all_high_without_ties :
    highCount ([1, 1, 2] : List ℚ) = 3 ∧
    ¬(highCount ([1, 1, 2] : List ℚ) = ([1, 1, 2] : List ℚ).length / 2 ∨
      highCount ([1, 1, 2] : List ℚ) = (([1, 1, 2] : List ℚ).length + 1) / 2) ∧
    ¬(∀ a ∈ ([1, 1, 2] : List ℚ), ∀ b ∈ ([1, 1, 2] : List ℚ), a = b) := by
  refine ⟨by decide, by decide, ?_⟩
  intro hall
  have h12 := hall 1 (by simp) 2 (by simp)
  norm_num at h12

/-- C6 amended: over a non-empty set of `n` groups, the quadrant
classification assigns the "High" label on an axis to at least `ceil (n/2)`
groups and at most all `n` groups (so never to none); with ties at the
median the count can exceed `ceil (n/2)` up to `n` even when not all values
are tied. -/
theorem highCount_bounds (v : List ℚ) (hv : v ≠ []) :
    (v.length + 1) / 2 ≤ highCount v ∧ highCount v ≤ v.length := by
  have hpos : 0 < v.length := List.length_pos.mpr hv
  set s := v.insertionSort (· ≤ ·) with hs
  have hperm : s.Perm v := List.perm_insertionSort _ v
  have hlen : s.length = v.length := hperm.length_eq
  have hsorted : List.Sorted (· ≤ ·) s := List.sorted_insertionSort _ v
  set k := v.length / 2 with hk
  have hks : k < s.length := by
    rw [hlen]
    exact Nat.div_lt_self hpos one_lt_two
  have hmid : medianPd v ≤ s[k] := by
    rw [medianPd]
    by_cases hodd : v.length % 2 = 1
    · rw [if_pos hodd, ← hs, List.getD_eq_getElem s 0 hks]
    · rw [if_neg hodd, ← hs]
      have hk1 : k - 1 < s.length := lt_of_le_of_lt (Nat.sub_le k 1) hks
      have hle : s[k-1] ≤ s[k] := by
        have := List.Sorted.rel_get_of_le hsorted
          (a := ⟨k - 1, hk1⟩) (b := ⟨k, hks⟩) (by simp)
        simpa using this
      rw [List.getD_eq_getElem s 0 hk1, List.getD_eq_getElem s 0 hks]
      linarith
  have hdropAll : ∀ a ∈ s.drop k, medianPd v ≤ a := by
    intro a ha
    rw [List.drop_eq_getElem_cons hks] at ha
    rcases List.mem_cons.mp ha with rfl | hmem
    · exact hmid
    · have hsdrop : List.Pairwise (· ≤ ·) (s.drop k) := List.Pairwise.drop hsorted
      rw [List.drop_eq_getElem_cons hks] at hsdrop
      exact le_trans hmid (List.rel_of_sorted_cons hsdrop a hmem)
  constructor
  · have hcv : highCount v
        = s.countP (fun xv => levelLabel (medianPd v) xv == "High") := by
      rw [highCount]
      exact (hperm.countP_eq _).symm
    have hsplit : s.countP (fun xv => levelLabel (medianPd v) xv == "High")
        = (s.take k).countP (fun xv => levelLabel (medianPd v) xv == "High")
          + (s.drop k).countP (fun xv => levelLabel (medianPd v) xv == "High") := by
      rw [← List.countP_append, List.take_append_drop]
    have hdropcnt : (s.drop k).countP
        (fun xv => levelLabel (medianPd v) xv == "High") = (s.drop k).length :=
      List.countP_eq_length.mpr fun a ha =>
        (levelLabel_high_iff _ _).mpr (hdropAll a ha)
    rw [hcv, hsplit, hdropcnt, List.length_drop, hlen]
    omega
  · exact List.countP_le_length _

theorem highCount_bounds_witness :
    ([1, 2, 3] : List ℚ) ≠ [] ∧
    ((([1, 2, 3] : List ℚ).length + 1) / 2 ≤ highCount ([1, 2, 3] : List ℚ) ∧
      highCount ([1, 2, 3] : List ℚ) ≤ ([1, 2, 3] : List ℚ).length) :=
  ⟨by simp, highCount_bounds ([1, 2, 3] : List ℚ) (by simp)⟩

/-- C7: the column check of `compute_relative_performance_index` errors out
exactly on the (non-empty) list of ALL missing required columns and yields
no result besides the error; when every required column is present, no
error is raised and the frame passes through. -/
theorem checkRequiredColumns_spec (df : List (String × List ℚ))
    (salaryColumn : String) (groupBy : List String) (e : List String) :
    (checkRequiredColumns df salaryColumn groupBy = .error e →
      e ≠ [] ∧ ∀ c, c ∈ e ↔
        (c ∈ requiredColumns salaryColumn groupBy ∧ c ∉ dfColumns df)) ∧
    ((∀ c ∈ requiredColumns salaryColumn groupBy, c ∈ dfColumns df) →
      checkRequiredColumns df salaryColumn groupBy = .ok df) := by
  constructor
  · intro he
    by_cases h : missingRequired df salaryColumn groupBy = []
    · rw [checkRequiredColumns, if_pos h] at he
      exact absurd he (by simp)
    · rw [checkRequiredColumns, if_neg h] at he
      have he' : e = missingRequired df salaryColumn groupBy := by
        cases he
        rfl
      subst he'
      refine ⟨h, ?_⟩
      intro c
      rw [missingRequired, List.mem_filter]
      simp [List.elem_iff]
  · intro hall
    rw [checkRequiredColumns, if_pos ?_]
    rw [missingRequired, List.filter_eq_nil_iff]
    intro c hc
    simp [List.elem_iff]
    exact hall c hc

theorem checkRequiredColumns_spec_witness :
    (checkRequiredColumns [("year", []), ("gross_monthly_median", [])]
        "gross_monthly_median" ["course"] = .error ["course"] →
      ["course"] ≠ ([] : List String) ∧ ∀ c, c ∈ ["course"] ↔
        (c ∈ requiredColumns "gross_monthly_median" ["course"] ∧
          c ∉ dfColumns [("year", []), ("gross_monthly_median", [])])) ∧
    ((∀ c ∈ requiredColumns "gross_monthly_median" ["course"],
        c ∈ dfColumns [("year", []), ("gross_monthly_median", [])]) →
      checkRequiredColumns [("year", []), ("gross_monthly_median", [])]
        "gross_monthly_median" ["course"]
        = .ok [("year", []), ("gross_monthly_median", [])]) :=
  checkRequiredColumns_spec [("year", []), ("gross_monthly_median", [])]
    "gross_monthly_median" ["course"] ["course"]

/-- C8: without an explicit focus list, every group returned by
`select_focus_groups` is present in at least `min_years` distinct periods
(so a group below the threshold is excluded even with the highest mean
z-score), and it sorts no later than any eligible group left out — larger
mean z-score, or equal mean z-score with at least as many distinct years. -/
theorem selectFocusGroups_spec (t : List ScoreRow) (topK minYears : ℕ)
    (g : String) (hg : g ∈ selectFocusGroups t topK minYears none) :
    minYears ≤ yearsPresent t g ∧
    ∀ h ∈ (t.map (fun r => r.group)).dedup,
      minYears ≤ yearsPresent t h →
      h ∉ selectFocusGroups t topK minYears none →
      focusLE t g h := by
  have htake : selectFocusGroups t topK minYears none
      = (((t.map (fun r => r.group)).dedup.filter
          (fun g' => minYears ≤ yearsPresent t g')).insertionSort
            (focusLE t)).take topK := rfl
  set elig := (t.map (fun r => r.group)).dedup.filter
    (fun g' => minYears ≤ yearsPresent t g') with helig
  set s := elig.insertionSort (focusLE t) with hsdef
  have hperm : s.Perm elig := List.perm_insertionSort _ _
  have hsorted : List.Sorted (focusLE t) s := List.sorted_insertionSort _ _
  rw [htake] at hg
  have hgelig : g ∈ elig := hperm.mem_iff.mp (List.mem_of_mem_take hg)
  constructor
  · have := (List.mem_filter.mp hgelig).2
    simpa using this
  · intro h hmem hyears hnot
    have helig2 : h ∈ elig := List.mem_filter.mpr ⟨hmem, by simpa using hyears⟩
    have hhs : h ∈ s := hperm.mem_iff.mpr helig2
    rw [← List.take_append_drop topK s] at hhs
    rcases List.mem_append.mp hhs with h1 | h2
    · rw [htake] at hnot
      exact absurd h1 hnot
    · exact hsorted.rel_of_mem_take_of_mem_drop hg h2

theorem selectFocusGroups_spec_witness :
    ("B" ∈ selectFocusGroups tEx 1 1 none) ∧
    (1 ≤ yearsPresent tEx "B" ∧
      ∀ h ∈ (tEx.map (fun r => r.group)).dedup,
        1 ≤ yearsPresent tEx h →
        h ∉ selectFocusGroups tEx 1 1 none →
        focusLE tEx "B" h) := by
  have hA : avgZ tEx "A" = 1 := by
    simp [avgZ, tEx]
  have hB : avgZ tEx "B" = 2 := by
    simp [avgZ, tEx]
  have hABn : ¬ focusLE tEx "A" "B" := by
    simp only [focusLE, hA, hB]
    norm_num
  have helig : (tEx.map (fun r => r.group)).dedup.filter
      (fun g' => (1:ℕ) ≤ yearsPresent tEx g') = ["A", "B"] := by decide
  have hsel : selectFocusGroups tEx 1 1 none = ["B"] := by
    show (((tEx.map (fun r => r.group)).dedup.filter
        (fun g' => (1:ℕ) ≤ yearsPresent tEx g')).insertionSort
          (focusLE tEx)).take 1 = ["B"]
    rw [helig]
    simp [List.insertionSort, List.orderedInsert, hABn]
  have hmem : "B" ∈ selectFocusGroups tEx 1 1 none := by
    rw [hsel]
    simp
  exact ⟨hmem, selectFocusGroups_spec tEx 1 1 "B" hmem⟩

theorem countP_filter_le {α : Type} (p q : α → Bool) (l : List α) :
    (l.filter q).countP p ≤ l.countP p := by
  rw [List.countP_filter]
  exact List.countP_mono_left fun x _ h => ((Bool.and_eq_true _ _).mp h).1

theorem filterCategories_filter_comm (l : List Record) (q : Record → Bool)
    (cs : Option (List String)) :
    filterCategories (l.filter q) cs = (filterCategories l cs).filter q := by
  match cs with
  | none => rfl
  | some cs' =>
    by_cases h : cs' = []
    · simp [filterCategories, h]
    · simp only [filterCategories, if_neg h, List.filter_filter]
      congr 1
      funext a
      rw [Bool.and_comm]

/-- C10: every record returned by `load_data` belongs to a university with
at least `MIN_RECORDS = 40` rows in the year/category-filtered data (no
university filter applied); hence a university below that threshold is
silently excluded even when the caller lists it in the `universities`
filter. -/
theorem load_data_min_records (rows : List Record) (yearStart yearEnd : Int)
    (universities categories : Option (List String)) (r : Record)
    (hr : r ∈ load_data rows yearStart yearEnd universities categories) :
    MIN_RECORDS ≤ (filterCategories (filterYears rows yearStart yearEnd)
      categories).countP (fun r2 => r2.university == r.university) := by
  rw [load_data] at hr
  obtain ⟨hmem, hpred⟩ := List.mem_filter.mp hr
  have hmaj : r.university ∈ majorUniversities (filterCategories
      (filterUniversities (filterYears rows yearStart yearEnd) universities)
      categories) := by
    simpa [List.elem_iff] using hpred
  have hcnt : MIN_RECORDS ≤ (filterCategories (filterUniversities
      (filterYears rows yearStart yearEnd) universities) categories).countP
      (fun r2 => r2.university == r.university) := by
    rw [majorUniversities] at hmaj
    have h2 := (List.mem_filter.mp hmaj).2
    simpa using h2
  refine le_trans hcnt ?_
  cases universities with
  | none => exact le_refl _
  | some us =>
    by_cases h : us = []
    · simp [filterUniversities, h]
    · rw [show filterUniversities (filterYears rows yearStart yearEnd) (some us)
          = (filterYears rows yearStart yearEnd).filter
            (fun r2 => us.contains r2.university) by
        rw [filterUniversities, if_neg h]]
      rw [filterCategories_filter_comm]
      exact countP_filter_le _ _ _

theorem load_data_min_records_witness :
    ((⟨2020, "NUS", "Engineering"⟩ : Record)
        ∈ load_data rowsEx 2015 2022 none none) ∧
    MIN_RECORDS ≤ (filterCategories (filterYears rowsEx 2015 2022)
      none).countP (fun r2 => r2.university == "NUS") :=
  ⟨by decide,
    load_data_min_records rowsEx 2015 2022 none none
      ⟨2020, "NUS", "Engineering"⟩ (by decide)⟩

end DAaaS
